import Mathlib

/-!
# Verification of the Turso3D software occlusion buffer

A shallow embedding of `Turso3D/Renderer/OcclusionBuffer.cpp` (clip-plane
triangle clipping, buffer sizing, slice partitioning, the mip depth
hierarchy build, and the hierarchical visibility query), together with
theorems settling the specification's claims about it.

Floating-point values of the source are modelled as rationals; the `int`
depth values and screen coordinates are modelled as `Int`.  Buffers are
modelled as total functions from coordinates to stored values, so that
out-of-range reads (which the source absorbs with a guard border) are
junk values rather than undefined behaviour.
-/

/-- A 3-component vector (`Vector3` in the source), over rationals. -/
structure Vec3 where
  x : ℚ
  y : ℚ
  z : ℚ
deriving DecidableEq, Repr

/-- A homogeneous 4-component vector (`Vector4` in the source). -/
structure Vec4 where
  x : ℚ
  y : ℚ
  z : ℚ
  w : ℚ
deriving DecidableEq, Repr

/-- Modelled from the spec: `Vector4::DotProduct`, the 4-component dot
product used to evaluate the signed distance of a homogeneous vertex to a
clip plane (the header declaring it is not part of the provided sources). -/
def Vec4.dot (a b : Vec4) : ℚ :=
  a.x * b.x + a.y * b.y + a.z * b.z + a.w * b.w

/-- A 4x4 matrix (`Matrix4` in the source). -/
structure Mat4 where
  m00 : ℚ
  m01 : ℚ
  m02 : ℚ
  m03 : ℚ
  m10 : ℚ
  m11 : ℚ
  m12 : ℚ
  m13 : ℚ
  m20 : ℚ
  m21 : ℚ
  m22 : ℚ
  m23 : ℚ
  m30 : ℚ
  m31 : ℚ
  m32 : ℚ
  m33 : ℚ
deriving DecidableEq, Repr

/-- Modelled from the spec: `ModelTransform(matrix, point)` multiplies the
4x4 matrix with the point extended to homogeneous coordinates
(`(x, y, z, 1)`); the spec describes corner projection as "projects all 8
corners through `view × projection`". -/
def ModelTransform (m : Mat4) (v : Vec3) : Vec4 :=
  { x := m.m00 * v.x + m.m01 * v.y + m.m02 * v.z + m.m03
    y := m.m10 * v.x + m.m11 * v.y + m.m12 * v.z + m.m13
    z := m.m20 * v.x + m.m21 * v.y + m.m22 * v.z + m.m23
    w := m.m30 * v.x + m.m31 * v.y + m.m32 * v.z + m.m33 }

/-- An axis-aligned bounding box (`BoundingBox` in the source). -/
structure BoundingBox where
  min : Vec3
  max : Vec3
deriving DecidableEq, Repr

/-- A `(min, max)` depth pair, one cell of a mip level (`DepthValue` in the
source). -/
structure DepthValue where
  min : Int
  max : Int
deriving DecidableEq, Repr

/-- A triangle of homogeneous clip-space vertices, as manipulated by
`OcclusionBuffer::ClipVertices` (three consecutive entries of its
`vertices` array). -/
structure ClipTriangle where
  v0 : Vec4
  v1 : Vec4
  v2 : Vec4
deriving DecidableEq, Repr

/-- Modelled from the spec: `OcclusionBuffer::ClipEdge` — "edge-clip
intersection parameter is `t = d0 / (d0 - d1)` using the two endpoint
signed plane distances; the clipped point is the linear interpolation of
position (homogeneous) at `t`" (the header defining it is not part of the
provided sources). -/
def ClipEdge (v0 v1 : Vec4) (d0 d1 : ℚ) : Vec4 :=
  let t : ℚ := d0 / (d0 - d1)
  { x := v0.x + t * (v1.x - v0.x)
    y := v0.y + t * (v1.y - v0.y)
    z := v0.z + t * (v1.z - v0.z)
    w := v0.w + t * (v1.w - v0.w) }

/-- One pass of `OcclusionBuffer::ClipVertices` applied to a single active
candidate triangle: the loop body at lines 437-497 of
`OcclusionBuffer.cpp`, with the in-place slot and the appended slot of the
fan-out buffer made explicit.  The first component is the candidate's own
slot after the pass (`none` when `clipTriangles[i]` is set to `false`),
the second is the newly appended triangle, when one is created. -/
def clipCandidate (plane : Vec4) (t : ClipTriangle) :
    Option ClipTriangle × Option ClipTriangle :=
  let d0 := plane.dot t.v0
  let d1 := plane.dot t.v1
  let d2 := plane.dot t.v2
  if d0 < 0 ∧ d1 < 0 ∧ d2 < 0 then
    (none, none)
  else if d0 < 0 ∧ d1 < 0 then
    (some ⟨ClipEdge t.v0 t.v2 d0 d2, ClipEdge t.v1 t.v2 d1 d2, t.v2⟩, none)
  else if d0 < 0 ∧ d2 < 0 then
    (some ⟨ClipEdge t.v0 t.v1 d0 d1, t.v1, ClipEdge t.v2 t.v1 d2 d1⟩, none)
  else if d1 < 0 ∧ d2 < 0 then
    (some ⟨t.v0, ClipEdge t.v1 t.v0 d1 d0, ClipEdge t.v2 t.v0 d2 d0⟩, none)
  else if d0 < 0 then
    (some ⟨ClipEdge t.v0 t.v1 d0 d1, t.v1, t.v2⟩,
     some ⟨ClipEdge t.v0 t.v2 d0 d2, ClipEdge t.v0 t.v1 d0 d1, t.v2⟩)
  else if d1 < 0 then
    (some ⟨t.v0, ClipEdge t.v1 t.v2 d1 d2, t.v2⟩,
     some ⟨t.v0, ClipEdge t.v1 t.v0 d1 d0, ClipEdge t.v1 t.v2 d1 d2⟩)
  else if d2 < 0 then
    (some ⟨t.v0, t.v1, ClipEdge t.v2 t.v0 d2 d0⟩,
     some ⟨ClipEdge t.v2 t.v0 d2 d0, t.v1, ClipEdge t.v2 t.v1 d2 d1⟩)
  else
    (some t, none)

/-- The number of vertices of a candidate triangle with negative signed
distance to the clip plane. -/
def negCount (plane : Vec4) (t : ClipTriangle) : Nat :=
  (if plane.dot t.v0 < 0 then 1 else 0) +
  (if plane.dot t.v1 < 0 then 1 else 0) +
  (if plane.dot t.v2 < 0 then 1 else 0)

/-- C3: each plane pass of `ClipVertices`, applied to an active candidate
triangle, is classified by the number of vertices with negative signed
distance to the plane: three negative vertices discard the candidate
(zero output triangles), exactly two negative vertices yield exactly one
output triangle (the candidate modified in place, nothing appended),
exactly one negative vertex yields exactly two output triangles (one
modified in place and one appended), and zero negative vertices leave the
candidate unchanged. -/
theorem clipVertices_cardinality (plane : Vec4) (t : ClipTriangle) :
    (negCount plane t = 3 → clipCandidate plane t = (none, none)) ∧
    (negCount plane t = 2 →
      (clipCandidate plane t).1.isSome ∧ (clipCandidate plane t).2 = none) ∧
    (negCount plane t = 1 →
      (clipCandidate plane t).1.isSome ∧ (clipCandidate plane t).2.isSome) ∧
    (negCount plane t = 0 → clipCandidate plane t = (some t, none)) := by
  by_cases h0 : plane.dot t.v0 < 0 <;>
    by_cases h1 : plane.dot t.v1 < 0 <;>
      by_cases h2 : plane.dot t.v2 < 0 <;>
        simp [clipCandidate, negCount, h0, h1, h2]

/-- Concrete instance of `clipVertices_cardinality`: clipping the triangle
`(0,0,-1,1), (0,0,1,1), (1,0,1,1)` against the near plane `z = 0` (plane
vector `(0,0,1,0)`) has exactly one vertex behind the plane and produces
exactly two output triangles. -/
theorem clipVertices_cardinality_witness :
    negCount ⟨0, 0, 1, 0⟩ ⟨⟨0, 0, -1, 1⟩, ⟨0, 0, 1, 1⟩, ⟨1, 0, 1, 1⟩⟩ = 1 ∧
    (clipCandidate ⟨0, 0, 1, 0⟩
        ⟨⟨0, 0, -1, 1⟩, ⟨0, 0, 1, 1⟩, ⟨1, 0, 1, 1⟩⟩).1.isSome ∧
    (clipCandidate ⟨0, 0, 1, 0⟩
        ⟨⟨0, 0, -1, 1⟩, ⟨0, 0, 1, 1⟩, ⟨1, 0, 1, 1⟩⟩).2.isSome :=
  ⟨by norm_num [negCount, Vec4.dot],
   (clipVertices_cardinality ⟨0, 0, 1, 0⟩
      ⟨⟨0, 0, -1, 1⟩, ⟨0, 0, 1, 1⟩, ⟨1, 0, 1, 1⟩⟩).2.2.1
     (by norm_num [negCount, Vec4.dot])⟩

/-- Modelled from the spec: the fixed number of horizontal raster slices
(`OCCLUSION_BUFFER_SLICES`; the header giving its value is not part of
the provided sources — the slice-related theorems below are proved for an
arbitrary positive slice count, this constant only instantiates the
concrete state). -/
def OCCLUSION_BUFFER_SLICES : Nat := 8

/-- Modelled from the spec: the minimum mip tile size
(`OCCLUSION_MIN_SIZE`; the header giving its value is not part of the
provided sources — the mip-chain theorem below is proved for an arbitrary
positive minimum size). -/
def OCCLUSION_MIN_SIZE : Nat := 8

/-- Power-of-two test on naturals by repeated halving, with explicit fuel
(any fuel of at least `n` is exact): `n` is a power of two when it is `1`
or an even number whose half is a power of two. -/
def isPow2Fuel : Nat → Nat → Bool
  | 0, _ => false
  | fuel + 1, n => n == 1 || (n % 2 == 0 && n != 0 && isPow2Fuel fuel (n / 2))

/-- Modelled from the spec: `IsPowerOfTwo`, the power-of-two test used by
`SetSize` (the math header defining it is not part of the provided
sources); `x` is a power of two when it is positive and of the form
`2 ^ k`. -/
def IsPowerOfTwo (x : Int) : Bool :=
  decide (0 < x) && isPow2Fuel x.toNat x.toNat

/-- One ceil-halving of a `(width, height)` pair, as in the mip loop of
`SetSize`: `newWidth = (newWidth + 1) / 2`, same for the height. -/
def halveDims (p : Nat × Nat) : Nat × Nat :=
  ((p.1 + 1) / 2, (p.2 + 1) / 2)

/-- `n` successive ceil-halvings of a dimension pair. -/
def halveIter : Nat → Nat × Nat → Nat × Nat
  | 0, p => p
  | n + 1, p => halveIter n (halveDims p)

/-- The mip-chain construction loop of `SetSize` (lines 86-95 of
`OcclusionBuffer.cpp`): repeatedly ceil-halve the dimensions, record one
level per iteration, and stop as soon as both dimensions are at most the
minimum size `m`.  The do-while loop is given explicit fuel; `buildMips`
supplies enough fuel for every positive input. -/
def buildMipsAux (m : Nat) : Nat → Nat × Nat → List (Nat × Nat)
  | 0, _ => []
  | fuel + 1, p =>
    let q := halveDims p
    if q.1 ≤ m ∧ q.2 ≤ m then [q] else q :: buildMipsAux m fuel q

/-- The list of mip-level dimensions allocated by `SetSize` for a buffer
of dimensions `w × h` with minimum tile size `m`. -/
def buildMips (m w h : Nat) : List (Nat × Nat) :=
  buildMipsAux m (w + h) (w, h)

/-- The slice-setup loop of `SetSize` (lines 68-78 of
`OcclusionBuffer.cpp`), started at slice index `i` with `fuel` loop
iterations remaining: while `i * sliceHeight < height`, slice `i` is
assigned the scanline range
`[i * sliceHeight, min ((i+1) * sliceHeight) height)`; the loop breaks at
the first inactive slice. -/
def buildSlicesAux (sh h : Int) : Nat → Nat → List (Int × Int)
  | _, 0 => []
  | i, fuel + 1 =>
    if (i : Int) * sh < h then
      ((i : Int) * sh, min (((i : Int) + 1) * sh) h) :: buildSlicesAux sh h (i + 1) fuel
    else
      []

/-- The scanline ranges of the active slices configured by `SetSize` for
buffer height `h`, slice height `sh` and `n` total slices. -/
def buildSlices (sh h : Int) (n : Nat) : List (Int × Int) :=
  buildSlicesAux sh h 0 n

/-- The state of an `OcclusionBuffer` that `SetSize` reads and writes:
stored dimensions, slice partition, mip-chain dimensions, whether the
depth buffer has been allocated, and the viewport transform parameters
set by `CalculateViewport`. -/
structure OcclusionSizeState where
  width : Int
  height : Int
  sliceHeight : Int
  slices : List (Int × Int)
  mipDims : List (Nat × Nat)
  bufferAllocated : Bool
  scaleX : ℚ
  scaleY : ℚ
  offsetX : ℚ
  offsetY : ℚ
deriving DecidableEq, Repr

/-- `OcclusionBuffer::CalculateViewport` (lines 305-312 of
`OcclusionBuffer.cpp`): the viewport transform parameters derived from
the stored width and height, with a half-pixel offset. -/
def CalculateViewport (s : OcclusionSizeState) : OcclusionSizeState :=
  { s with
    scaleX := (1 / 2 : ℚ) * (s.width : ℚ)
    scaleY := -(1 / 2 : ℚ) * (s.height : ℚ)
    offsetX := (1 / 2 : ℚ) * (s.width : ℚ) + 1 / 2
    offsetY := (1 / 2 : ℚ) * (s.height : ℚ) + 1 / 2 }

/-- The entry statement of `SetSize` (lines 46-47 of
`OcclusionBuffer.cpp`): `if (height & 1) ++height;` — note that it
adjusts the stored member `height`, not the requested height. -/
def adjustStoredHeight (s : OcclusionSizeState) : OcclusionSizeState :=
  if s.height % 2 = 1 then { s with height := s.height + 1 } else s

/-- `OcclusionBuffer::SetSize` (lines 43-101 of `OcclusionBuffer.cpp`):
returns the boolean result together with the state after the call.  The
member `height` is made even on entry; a request equal to the stored
dimensions succeeds immediately; non-positive dimensions fail; a stored
width that is not a power of two fails (the source checks the member
`width`, not `newWidth`); otherwise the dimensions are stored, the slice
partition, buffer allocation and mip chain are rebuilt, and the viewport
is recalculated. -/
def SetSize (s0 : OcclusionSizeState) (newWidth newHeight : Int) :
    Bool × OcclusionSizeState :=
  let s := adjustStoredHeight s0
  if newWidth = s.width ∧ newHeight = s.height then
    (true, s)
  else if newWidth ≤ 0 ∨ newHeight ≤ 0 then
    (false, s)
  else if !IsPowerOfTwo s.width then
    (false, s)
  else
    let sliceHeight := Int.tdiv newHeight (OCCLUSION_BUFFER_SLICES : Int) + 1
    (true, CalculateViewport
      { s with
        width := newWidth
        height := newHeight
        sliceHeight := sliceHeight
        slices := buildSlices sliceHeight newHeight OCCLUSION_BUFFER_SLICES
        bufferAllocated := true
        mipDims := buildMips OCCLUSION_MIN_SIZE newWidth.toNat newHeight.toNat })

/-- A concrete pre-call state: a buffer previously sized `512 × 64` (a
power-of-two width), used to exercise `SetSize` on concrete inputs. -/
def sampleState : OcclusionSizeState :=
  { width := 512
    height := 64
    sliceHeight := 9
    slices := buildSlices 9 64 OCCLUSION_BUFFER_SLICES
    mipDims := buildMips OCCLUSION_MIN_SIZE 512 64
    bufferAllocated := true
    scaleX := 256
    scaleY := -32
    offsetX := 256 + 1 / 2
    offsetY := 32 + 1 / 2 }

/-- A concrete pre-call state whose stored height is odd (reachable: a
successful `SetSize` stores the requested height without rounding, see
`setSize_heightNotRounded_bug`). -/
def oddHeightState : OcclusionSizeState :=
  { sampleState with height := 33 }

lemma buildSlicesAux_getD (sh h : Int) :
    ∀ (fuel i k : Nat), k < (buildSlicesAux sh h i fuel).length →
      (buildSlicesAux sh h i fuel).getD k (0, 0) =
        (((i + k : Nat) : Int) * sh, min ((((i + k : Nat) : Int) + 1) * sh) h) ∧
      ((i + k : Nat) : Int) * sh < h := by
  intro fuel
  induction fuel with
  | zero => intro i k hk; simp [buildSlicesAux] at hk
  | succ n ih =>
    intro i k hk
    rw [buildSlicesAux] at hk ⊢
    by_cases hc : (i : Int) * sh < h
    · rw [if_pos hc] at hk ⊢
      cases k with
      | zero =>
        constructor
        · simp
        · simpa using hc
      | succ k =>
        simp only [List.getD_cons_succ, List.length_cons, Nat.succ_lt_succ_iff] at hk ⊢
        have := ih (i + 1) k hk
        have harith : ((i + 1 + k : Nat) : Int) = ((i + (k + 1) : Nat) : Int) := by
          push_cast; ring
        rw [harith] at this
        exact this
    · rw [if_neg hc] at hk
      simp at hk

lemma buildSlicesAux_length (sh h : Int) :
    ∀ (fuel i : Nat),
      (buildSlicesAux sh h i fuel).length = fuel ∨
      ¬(((i + (buildSlicesAux sh h i fuel).length : Nat) : Int) * sh < h) := by
  intro fuel
  induction fuel with
  | zero => intro i; left; simp [buildSlicesAux]
  | succ n ih =>
    intro i
    rw [buildSlicesAux]
    by_cases hc : (i : Int) * sh < h
    · rw [if_pos hc]
      rcases ih (i + 1) with hlen | hstop
      · left; simp [hlen]
      · right
        simp only [List.length_cons]
        have harith : ((i + 1 + (buildSlicesAux sh h (i + 1) n).length : Nat) : Int) =
            ((i + ((buildSlicesAux sh h (i + 1) n).length + 1) : Nat) : Int) := by
          push_cast; ring
        rw [harith] at hstop
        exact hstop
    · rw [if_neg hc]
      right
      simpa using hc

/-- The corrected slice-partition property: the active slices have height
`sh` (`floor(h / sliceCount) + 1`), slice `k` covers the scanline range
`[k * sh, min ((k+1) * sh) h)`, and together the active slices cover
every scanline `0 ≤ y < h` (adjacent slices are contiguous and disjoint,
not overlapping). -/
def slicePartitionSpec (L : List (Int × Int)) (sh h : Int) : Prop :=
  1 ≤ L.length ∧
  (∀ k : Nat, k < L.length →
    L.getD k (0, 0) = ((k : Int) * sh, min (((k : Int) + 1) * sh) h)) ∧
  (∀ y : Int, 0 ≤ y → y < h →
    ∃ k : Nat, k < L.length ∧ (k : Int) * sh ≤ y ∧ y < min (((k : Int) + 1) * sh) h)

lemma buildSlices_partition (sh h : Int) (n : Nat)
    (hn : 1 ≤ n) (hh : 0 < h) (hsh : 0 < sh) (hcover : h ≤ (n : Int) * sh) :
    slicePartitionSpec (buildSlices sh h n) sh h := by
  have hget := fun k hk => buildSlicesAux_getD sh h n 0 k hk
  have hlen := buildSlicesAux_length sh h n 0
  simp only [Nat.zero_add] at hget hlen
  have hA : buildSlices sh h n = buildSlicesAux sh h 0 n := rfl
  unfold slicePartitionSpec
  rw [hA]
  have hlen1 : 1 ≤ (buildSlicesAux sh h 0 n).length := by
    rcases Nat.eq_zero_or_pos (buildSlicesAux sh h 0 n).length with h0 | h1
    · exfalso
      rcases hlen with hl | hl
      · omega
      · rw [h0] at hl
        simp at hl
        omega
    · exact h1
  refine ⟨hlen1, fun k hk => (hget k hk).1, fun y hy0 hyh => ?_⟩
  have hq0 : 0 ≤ y / sh := Int.ediv_nonneg hy0 (le_of_lt hsh)
  have hsplit : sh * (y / sh) + y % sh = y := Int.ediv_add_emod y sh
  have hm0 : 0 ≤ y % sh := Int.emod_nonneg y (by omega)
  have hm1 : y % sh < sh := Int.emod_lt_of_pos y hsh
  refine ⟨(y / sh).toNat, ?_, ?_, ?_⟩
  · by_contra hge
    push_neg at hge
    have hmul : ((buildSlicesAux sh h 0 n).length : Int) * sh ≤
        ((y / sh).toNat : Int) * sh :=
      mul_le_mul_of_nonneg_right (by exact_mod_cast hge) (le_of_lt hsh)
    rw [Int.toNat_of_nonneg hq0] at hmul
    rcases hlen with hl | hl
    · rw [hl] at hmul
      nlinarith
    · push_neg at hl
      nlinarith
  · rw [Int.toNat_of_nonneg hq0]; nlinarith
  · rw [Int.toNat_of_nonneg hq0]
    refine lt_min ?_ hyh
    nlinarith

lemma setSize_success_eq (s : OcclusionSizeState) (w h : Int)
    (hne : ¬(w = (adjustStoredHeight s).width ∧ h = (adjustStoredHeight s).height))
    (hok : (SetSize s w h).1 = true) :
    0 < w ∧ 0 < h ∧
    (SetSize s w h).2.width = w ∧
    (SetSize s w h).2.height = h ∧
    (SetSize s w h).2.sliceHeight = Int.tdiv h (OCCLUSION_BUFFER_SLICES : Int) + 1 ∧
    (SetSize s w h).2.slices =
      buildSlices (Int.tdiv h (OCCLUSION_BUFFER_SLICES : Int) + 1) h OCCLUSION_BUFFER_SLICES ∧
    (SetSize s w h).2.mipDims = buildMips OCCLUSION_MIN_SIZE w.toNat h.toNat := by
  rw [SetSize] at hok ⊢
  rw [if_neg hne] at hok ⊢
  by_cases hpos : w ≤ 0 ∨ h ≤ 0
  · rw [if_pos hpos] at hok; simp at hok
  · rw [if_neg hpos] at hok ⊢
    by_cases hpow : !IsPowerOfTwo (adjustStoredHeight s).width
    · rw [if_pos hpow] at hok; simp at hok
    · rw [if_neg hpow]
      push_neg at hpos
      refine ⟨by omega, by omega, ?_⟩
      simp [CalculateViewport]

/-- C5 counterexample: from a `512 × 64` buffer, `SetSize(256, 66)`
succeeds; the slice height is `66 / 8 + 1 = 9` (floor), not
`ceil(66 / 8) + 1 = 10`, and the first two active slices cover `[0, 9)`
and `[9, 18)`, which share no scanline row. -/
theorem setSize_sliceOverlap_cex :
    (SetSize sampleState 256 66).1 = true ∧
    (SetSize sampleState 256 66).2.sliceHeight = 9 ∧
    (SetSize sampleState 256 66).2.slices.getD 0 (0, 0) = (0, 9) ∧
    (SetSize sampleState 256 66).2.slices.getD 1 (0, 0) = (9, 18) ∧
    (9 : Int) - 0 ≠
      Int.tdiv (66 + (OCCLUSION_BUFFER_SLICES : Int) - 1)
        (OCCLUSION_BUFFER_SLICES : Int) + 1 ∧
    (∀ y : Int, ¬(0 ≤ y ∧ y < 9 ∧ 9 ≤ y ∧ y < 18)) :=
  ⟨by decide, by decide, by decide, by decide, by decide, fun y => by omega⟩

/-- C5 (amended): after a resize through the full path of `SetSize`
succeeds, the slice height is `floor(h / sliceCount) + 1`, active slice
`k` covers the scanline range `[k * sliceHeight, min ((k+1) * sliceHeight) h)`,
and the active slices are contiguous, disjoint and together cover every
scanline of the buffer (adjacent slices do not overlap). -/
theorem setSize_slicePartition (s : OcclusionSizeState) (w h : Int)
    (hne : ¬(w = (adjustStoredHeight s).width ∧ h = (adjustStoredHeight s).height))
    (hok : (SetSize s w h).1 = true) :
    (SetSize s w h).2.sliceHeight =
      Int.tdiv h (OCCLUSION_BUFFER_SLICES : Int) + 1 ∧
    slicePartitionSpec (SetSize s w h).2.slices
      (Int.tdiv h (OCCLUSION_BUFFER_SLICES : Int) + 1) h := by
  obtain ⟨hw, hh, _, _, hsl, hslices, _⟩ := setSize_success_eq s w h hne hok
  have hN8 : (OCCLUSION_BUFFER_SLICES : Int) = 8 := rfl
  have htd : Int.tdiv h (OCCLUSION_BUFFER_SLICES : Int) = h / 8 := by
    rw [hN8]
    exact Int.tdiv_eq_ediv (by omega) (by norm_num)
  refine ⟨hsl, ?_⟩
  rw [hslices]
  apply buildSlices_partition
  · norm_num [OCCLUSION_BUFFER_SLICES]
  · exact hh
  · rw [htd]
    have h0 : 0 ≤ h / 8 := Int.ediv_nonneg (by omega) (by norm_num)
    omega
  · rw [htd]
    have hsplit : 8 * (h / 8) + h % 8 = h := Int.ediv_add_emod h 8
    have hm : h % 8 < 8 := Int.emod_lt_of_pos h (by norm_num)
    have : (OCCLUSION_BUFFER_SLICES : Int) = 8 := rfl
    rw [this]
    omega

/-- Concrete instance of `setSize_slicePartition`: the resize
`SetSize(256, 66)` from a `512 × 64` buffer takes the full path, succeeds,
and its slice partition satisfies the corrected partition property. -/
theorem setSize_slicePartition_witness :
    (¬((256 : Int) = (adjustStoredHeight sampleState).width ∧
       (66 : Int) = (adjustStoredHeight sampleState).height)) ∧
    (SetSize sampleState 256 66).1 = true ∧
    ((SetSize sampleState 256 66).2.sliceHeight =
       Int.tdiv 66 (OCCLUSION_BUFFER_SLICES : Int) + 1 ∧
     slicePartitionSpec (SetSize sampleState 256 66).2.slices
       (Int.tdiv 66 (OCCLUSION_BUFFER_SLICES : Int) + 1) 66) :=
  ⟨by decide, by decide,
   setSize_slicePartition sampleState 256 66 (by decide) (by decide)⟩

lemma buildMipsAux_spec (m : Nat) (hm : 1 ≤ m) :
    ∀ (fuel : Nat) (p : Nat × Nat), 1 ≤ p.1 → 1 ≤ p.2 → p.1 + p.2 ≤ fuel →
      1 ≤ (buildMipsAux m fuel p).length ∧
      (∀ k, k < (buildMipsAux m fuel p).length →
        (buildMipsAux m fuel p).getD k (0, 0) = halveIter (k + 1) p) ∧
      (halveIter (buildMipsAux m fuel p).length p).1 ≤ m ∧
      (halveIter (buildMipsAux m fuel p).length p).2 ≤ m ∧
      (∀ k, k + 1 < (buildMipsAux m fuel p).length →
        ¬((halveIter (k + 1) p).1 ≤ m ∧ (halveIter (k + 1) p).2 ≤ m)) := by
  intro fuel
  induction fuel with
  | zero => intro p h1 h2 hle; exact absurd hle (by omega)
  | succ n ih =>
    intro p h1 h2 hle
    rw [buildMipsAux]
    by_cases hq : (halveDims p).1 ≤ m ∧ (halveDims p).2 ≤ m
    · rw [if_pos hq]
      refine ⟨by simp, ?_, hq.1, hq.2, ?_⟩
      · intro k hk
        simp only [List.length_singleton, Nat.lt_one_iff] at hk
        subst hk
        rfl
      · intro k hk
        simp at hk
    · rw [if_neg hq]
      have hq1 : 1 ≤ (halveDims p).1 := by
        simp only [halveDims]; omega
      have hq2 : 1 ≤ (halveDims p).2 := by
        simp only [halveDims]; omega
      have hsum : (halveDims p).1 + (halveDims p).2 ≤ n := by
        simp only [halveDims] at hq ⊢
        omega
      obtain ⟨ih1, ih2, ih3, ih4, ih5⟩ := ih (halveDims p) hq1 hq2 hsum
      refine ⟨by simp, ?_, ih3, ih4, ?_⟩
      · intro k hk
        cases k with
        | zero => rfl
        | succ j =>
          simp only [List.getD_cons_succ]
          simp only [List.length_cons, Nat.succ_lt_succ_iff] at hk
          exact ih2 j hk
      · intro k hk
        cases k with
        | zero => exact hq
        | succ j =>
          simp only [List.length_cons, Nat.succ_lt_succ_iff] at hk
          exact ih5 j hk

/-- The mip-chain property claimed by the spec: at least one level; level
`k` has the dimensions obtained by `k + 1` successive ceil-halvings of the
full buffer dimensions (so each level is the ceil-halving of the previous
one, level 0 halving the full dimensions); the last level is the first
one with both dimensions at most the minimum tile size `m`. -/
def mipChainSpec (L : List (Nat × Nat)) (m : Nat) (p : Nat × Nat) : Prop :=
  1 ≤ L.length ∧
  (∀ k, k < L.length → L.getD k (0, 0) = halveIter (k + 1) p) ∧
  (halveIter L.length p).1 ≤ m ∧
  (halveIter L.length p).2 ≤ m ∧
  (∀ k, k + 1 < L.length →
    ¬((halveIter (k + 1) p).1 ≤ m ∧ (halveIter (k + 1) p).2 ≤ m))

lemma buildMips_chain (m w h : Nat) (hm : 1 ≤ m) (hw : 1 ≤ w) (hh : 1 ≤ h) :
    mipChainSpec (buildMips m w h) m (w, h) :=
  buildMipsAux_spec m hm (w + h) (w, h) hw hh (le_refl _)

/-- C8: after a resize through the full path of `SetSize` succeeds, the
mip chain has exactly as many levels as ceil-halvings of the buffer
dimensions are needed (repeating at least once) until both dimensions are
at most `OCCLUSION_MIN_SIZE`, and level `k` has the dimensions of `k + 1`
successive ceil-halvings of the full buffer dimensions. -/
theorem setSize_mipChain (s : OcclusionSizeState) (w h : Int)
    (hne : ¬(w = (adjustStoredHeight s).width ∧ h = (adjustStoredHeight s).height))
    (hok : (SetSize s w h).1 = true) :
    mipChainSpec (SetSize s w h).2.mipDims OCCLUSION_MIN_SIZE
      (w.toNat, h.toNat) := by
  obtain ⟨hw, hh, _, _, _, _, hmips⟩ := setSize_success_eq s w h hne hok
  rw [hmips]
  exact buildMips_chain _ _ _ (by norm_num [OCCLUSION_MIN_SIZE]) (by omega) (by omega)

/-- Concrete instance of `setSize_mipChain`: the resize `SetSize(256, 64)`
from a `512 × 64` buffer takes the full path, succeeds, and its mip chain
satisfies the chain property (5 levels: 128×32, 64×16, 32×8, 16×4, 8×2). -/
theorem setSize_mipChain_witness :
    (¬((256 : Int) = (adjustStoredHeight sampleState).width ∧
       (64 : Int) = (adjustStoredHeight sampleState).height)) ∧
    (SetSize sampleState 256 64).1 = true ∧
    mipChainSpec (SetSize sampleState 256 64).2.mipDims OCCLUSION_MIN_SIZE
      ((256 : Int).toNat, (64 : Int).toNat) :=
  ⟨by decide, by decide,
   setSize_mipChain sampleState 256 64 (by decide) (by decide)⟩

/-- C4: two divergences of `SetSize` from the claimed rejection behaviour,
evaluated on concrete states.  First, the power-of-two check is applied
to the stale member `width` (512) instead of the requested width, so
`SetSize(100, 64)` on a 512-wide buffer succeeds and stores the
non-power-of-two width 100.  Second, on a buffer whose stored height is
odd (33), the entry statement `if (height & 1) ++height;` mutates the
stored height to 34 even though the call `SetSize(-1, 5)` then fails, so
a failing call does not leave prior state unchanged. -/
theorem setSize_staleChecks_bug :
    (IsPowerOfTwo 100 = false ∧
     (SetSize sampleState 100 64).1 = true ∧
     (SetSize sampleState 100 64).2.width = 100) ∧
    ((SetSize oddHeightState (-1) 5).1 = false ∧
     oddHeightState.height = 33 ∧
     (SetSize oddHeightState (-1) 5).2.height = 34) := by
  refine ⟨⟨by decide, by decide, by decide⟩, by decide, by decide, by decide⟩

/-- C7: `SetSize` rounds the stale member `height` at entry instead of the
requested height, so from a `512 × 64` buffer the call `SetSize(256, 33)`
succeeds and stores the odd height 33 rather than 34. -/
theorem setSize_heightNotRounded_bug :
    (SetSize sampleState 256 33).1 = true ∧
    (SetSize sampleState 256 33).2.height = 33 := by
  exact ⟨by decide, by decide⟩

/-- The first stage of `OcclusionBuffer::BuildDepthHierarchyWork` (lines
692-730 of `OcclusionBuffer.cpp`): cell `(x, y)` of mip level 0 stores the
min and max of the raw depth-buffer pixels `(2x, 2y)`, `(2x+1, 2y)` and,
when pixel row `2y + 1` exists (`y * 2 + 1 < height`), also `(2x, 2y+1)`,
`(2x+1, 2y+1)`.  The raw buffer is modelled as a total function. -/
def mipLevel0 (h : Nat) (buf : Nat → Nat → Int) : Nat → Nat → DepthValue :=
  fun x y =>
    if 2 * y + 1 < h then
      { min := min (min (buf (2*x) (2*y)) (buf (2*x+1) (2*y)))
                   (min (buf (2*x) (2*y+1)) (buf (2*x+1) (2*y+1)))
        max := max (max (buf (2*x) (2*y)) (buf (2*x+1) (2*y)))
                   (max (buf (2*x) (2*y+1)) (buf (2*x+1) (2*y+1))) }
    else
      { min := min (buf (2*x) (2*y)) (buf (2*x+1) (2*y))
        max := max (buf (2*x) (2*y)) (buf (2*x+1) (2*y)) }

/-- The later stages of `OcclusionBuffer::BuildDepthHierarchyWork` (lines
734-779 of `OcclusionBuffer.cpp`): cell `(x, y)` of mip level `N > 0`
reduces the `(min, max)` pairs of cells `(2x, 2y)`, `(2x+1, 2y)` of level
`N-1` and, when cell row `2y + 1` of the previous level exists
(`y * 2 + 1 < prevHeight`), also `(2x, 2y+1)`, `(2x+1, 2y+1)`. -/
def mipStep (ph : Nat) (prev : Nat → Nat → DepthValue) : Nat → Nat → DepthValue :=
  fun x y =>
    if 2 * y + 1 < ph then
      { min := min (min (prev (2*x) (2*y)).min ((prev (2*x+1) (2*y)).min))
                   (min (prev (2*x) (2*y+1)).min ((prev (2*x+1) (2*y+1)).min))
        max := max (max (prev (2*x) (2*y)).max ((prev (2*x+1) (2*y)).max))
                   (max (prev (2*x) (2*y+1)).max ((prev (2*x+1) (2*y+1)).max)) }
    else
      { min := min (prev (2*x) (2*y)).min (prev (2*x+1) (2*y)).min
        max := max (prev (2*x) (2*y)).max (prev (2*x+1) (2*y)).max }

/-- Dimensions of mip level `n` of a `w × h` buffer: `n + 1` successive
ceil-halvings (level 0 is `((w+1)/2, (h+1)/2)`), as computed by the
`mipWidth`/`mipHeight` updates of `BuildDepthHierarchyWork`. -/
def mipDimsAt (w h : Nat) : Nat → Nat × Nat
  | 0 => halveDims (w, h)
  | n + 1 => halveDims (mipDimsAt w h n)

/-- The contents of mip level `n` built by `BuildDepthHierarchyWork` from
the raw depth buffer `buf` of a `w × h` buffer. -/
def mipAt (w h : Nat) (buf : Nat → Nat → Int) : Nat → (Nat → Nat → DepthValue)
  | 0 => mipLevel0 h buf
  | n + 1 => mipStep (mipDimsAt w h n).2 (mipAt w h buf n)

/-- The raw pixel region summarized by cell `(x, y)` of mip level `n`, per
the recursive coverage of the build: a level-0 cell covers the in-range
pixels of the `2×2` block at `(2x, 2y)`; a level-`n+1` cell covers the
pixels covered by its existing level-`n` child cells `(2x, 2y)`,
`(2x+1, 2y)` and, when child row `2y+1` exists, `(2x, 2y+1)`,
`(2x+1, 2y+1)`. -/
def covers (w h : Nat) : Nat → Nat → Nat → Nat → Nat → Bool
  | 0, x, y, px, py =>
    (px == 2*x || px == 2*x + 1) && (py == 2*y || py == 2*y + 1) &&
      decide (px < w) && decide (py < h)
  | n + 1, x, y, px, py =>
    covers w h n (2*x) (2*y) px py || covers w h n (2*x+1) (2*y) px py ||
      (decide (2*y + 1 < (mipDimsAt w h n).2) &&
        (covers w h n (2*x) (2*y+1) px py || covers w h n (2*x+1) (2*y+1) px py))

/-- C2: the depth hierarchy is conservative — for every mip level `n` and
cell `(x, y)` of that level, every raw depth-buffer pixel value `d` in
the pixel region the cell covers satisfies `cell.min ≤ d` and
`d ≤ cell.max`. -/
theorem mipHierarchy_conservative (w h : Nat) (buf : Nat → Nat → Int)
    (n x y px py : Nat) (hcov : covers w h n x y px py = true) :
    (mipAt w h buf n x y).min ≤ buf px py ∧
    buf px py ≤ (mipAt w h buf n x y).max := by
  induction n generalizing x y with
  | zero =>
    simp only [covers, Bool.and_eq_true, Bool.or_eq_true, beq_iff_eq,
      decide_eq_true_eq] at hcov
    obtain ⟨⟨⟨hpx, hpy⟩, hw⟩, hh⟩ := hcov
    simp only [mipAt, mipLevel0]
    by_cases hrow : 2 * y + 1 < h
    · rw [if_pos hrow]
      rcases hpx with h1 | h1 <;> rcases hpy with h2 | h2 <;> subst h1 <;>
        subst h2 <;> constructor <;> simp
    · rw [if_neg hrow]
      rcases hpy with h2 | h2
      · subst h2
        rcases hpx with h1 | h1 <;> subst h1 <;> constructor <;> simp
      · exfalso; omega
  | succ n ih =>
    simp only [covers, Bool.or_eq_true, Bool.and_eq_true, decide_eq_true_eq] at hcov
    simp only [mipAt, mipStep]
    by_cases hrow : 2 * y + 1 < (mipDimsAt w h n).2
    · rw [if_pos hrow]
      rcases hcov with (hc | hc) | ⟨_, hc | hc⟩ <;>
        [have := ih (2*x) (2*y) hc; have := ih (2*x+1) (2*y) hc;
         have := ih (2*x) (2*y+1) hc; have := ih (2*x+1) (2*y+1) hc] <;>
        constructor <;> simp <;> omega
    · rw [if_neg hrow]
      rcases hcov with (hc | hc) | ⟨hr, _⟩
      · have := ih (2*x) (2*y) hc
        constructor <;> simp <;> omega
      · have := ih (2*x+1) (2*y) hc
        constructor <;> simp <;> omega
      · exact absurd hr hrow

/-- A concrete raw depth buffer used to instantiate the conservativeness
theorem. -/
def sampleDepthBuf : Nat → Nat → Int :=
  fun x y => (x : Int) + 3 * (y : Int)

/-- Concrete instance of `mipHierarchy_conservative`: in a `4 × 4` buffer,
pixel `(1, 1)` lies in the region covered by cell `(0, 0)` of mip level 1,
and that cell's `(min, max)` pair bounds the pixel's depth. -/
theorem mipHierarchy_conservative_witness :
    covers 4 4 1 0 0 1 1 = true ∧
    ((mipAt 4 4 sampleDepthBuf 1 0 0).min ≤ sampleDepthBuf 1 1 ∧
     sampleDepthBuf 1 1 ≤ (mipAt 4 4 sampleDepthBuf 1 0 0).max) :=
  ⟨by decide, mipHierarchy_conservative 4 4 sampleDepthBuf 1 0 0 1 1 (by decide)⟩

/-- The slice-bucket test of the fully-inside (unclipped) path of
`OcclusionBuffer::AddTriangle` (lines 368-374 of `OcclusionBuffer.cpp`):
slice `i` receives the triangle when `minY < sliceEndY && maxY > sliceStartY`
with `sliceEndY = min(height, sliceStartY + sliceHeight)`. -/
def bucketUnclipped (sliceHeight h : Int) (i : Nat) (minY maxY : Int) : Bool :=
  let sliceStartY := (i : Int) * sliceHeight
  let sliceEndY := min h (sliceStartY + sliceHeight)
  decide (minY < sliceEndY) && decide (maxY > sliceStartY)

/-- The slice-bucket test of the clipped path of
`OcclusionBuffer::AddTriangle` (lines 418-424 of `OcclusionBuffer.cpp`):
slice `j` receives the triangle when `minY < endY && maxY >= startY` with
`endY = startY + sliceHeight` (not clamped to the buffer height). -/
def bucketClipped (sliceHeight : Int) (i : Nat) (minY maxY : Int) : Bool :=
  let startY := (i : Int) * sliceHeight
  let endY := startY + sliceHeight
  decide (minY < endY) && decide (maxY ≥ startY)

/-- The list of slice indices whose bucket receives a surviving triangle
with vertical extent `[minY, maxY]`, for each of the two paths of
`AddTriangle` (the loops over `activeSlices` at lines 368-374 and
418-424). -/
def bucketSlices (pred : Nat → Int → Int → Bool) (activeSlices : Nat)
    (minY maxY : Int) : List Nat :=
  (List.range activeSlices).filter fun i => pred i minY maxY

/-- C9 counterexample: the two bucketing predicates of `AddTriangle` are
not the same.  With slice height 10 and buffer height 20, a triangle with
vertical extent `[5, 10]` is bucketed into slice 1 (scanlines `[10, 20)`)
by the clipped path (`maxY >= startY`) but not by the unclipped path
(`maxY > sliceStartY`). -/
theorem addTriangle_bucket_cex :
    bucketClipped 10 1 5 10 = true ∧ bucketUnclipped 10 20 1 5 10 = false := by
  exact ⟨by decide, by decide⟩

/-- C9 (amended): each surviving triangle is appended to exactly the
slices selected by its path's predicate, and the two predicates are
interval-overlap tests with different conventions: the clipped path
buckets into slice `i` exactly when the unclamped slice interval
`[i*sh, i*sh + sh)` meets the closed extent `[minY, maxY]`; the unclipped
path, for an active slice (`i*sh < h`) and a triangle of positive
vertical extent, buckets exactly when the height-clamped interval
`[i*sh, min h (i*sh + sh))` meets the half-open extent `[minY, maxY)`.
The two tests differ (see `addTriangle_bucket_cex`). -/
theorem addTriangle_bucket (sh h : Int) (i : Nat) (minY maxY : Int)
    (hsh : 0 < sh) (hyy : minY ≤ maxY) :
    (bucketClipped sh i minY maxY = true ↔
      ∃ y : Int, (i : Int) * sh ≤ y ∧ y < (i : Int) * sh + sh ∧
        minY ≤ y ∧ y ≤ maxY) ∧
    ((i : Int) * sh < h → minY < maxY →
      (bucketUnclipped sh h i minY maxY = true ↔
        ∃ y : Int, (i : Int) * sh ≤ y ∧ y < min h ((i : Int) * sh + sh) ∧
          minY ≤ y ∧ y < maxY)) := by
  constructor
  · unfold bucketClipped
    simp only [Bool.and_eq_true, decide_eq_true_eq]
    constructor
    · rintro ⟨hlt, hge⟩
      exact ⟨max ((i : Int) * sh) minY, by omega, by omega, by omega, by omega⟩
    · rintro ⟨y, hy1, hy2, hy3, hy4⟩
      omega
  · intro hact hext
    unfold bucketUnclipped
    simp only [Bool.and_eq_true, decide_eq_true_eq, gt_iff_lt]
    constructor
    · rintro ⟨hlt, hgt⟩
      exact ⟨max ((i : Int) * sh) minY, by omega, by omega, by omega, by omega⟩
    · rintro ⟨y, hy1, hy2, hy3, hy4⟩
      omega

/-- Concrete instance of `addTriangle_bucket`: slice height 10, buffer
height 20, slice 0, triangle extent `[5, 12]`. -/
theorem addTriangle_bucket_witness :
    (0 : Int) < 10 ∧ (5 : Int) ≤ 12 ∧
    ((bucketClipped 10 0 5 12 = true ↔
       ∃ y : Int, ((0 : Nat) : Int) * 10 ≤ y ∧ y < ((0 : Nat) : Int) * 10 + 10 ∧
         5 ≤ y ∧ y ≤ 12) ∧
     (((0 : Nat) : Int) * 10 < 20 → (5 : Int) < 12 →
       (bucketUnclipped 10 20 0 5 12 = true ↔
         ∃ y : Int, ((0 : Nat) : Int) * 10 ≤ y ∧
           y < min 20 (((0 : Nat) : Int) * 10 + 10) ∧ 5 ≤ y ∧ y < 12))) :=
  ⟨by norm_num, by norm_num, addTriangle_bucket 10 20 0 5 12 (by norm_num) (by norm_num)⟩

/-- Modelled from the spec: the depth scale `OCCLUSION_Z_SCALE` used by
the viewport transform to produce scaled-integer depths (the header
giving its value is not part of the provided sources; no claim depends on
the value). -/
def OCCLUSION_Z_SCALE : ℚ := 4194304

/-- The state of an `OcclusionBuffer` read by `IsVisible`: whether the
depth buffer is allocated, the number of submitted triangle batches, the
buffer dimensions, the combined view-projection matrix, the viewport
parameters, the raw pixel depths, and the mip levels (finest first; at an
idle pipeline `numReadyMipBuffers` equals the number of levels, which is
how the list is read here).  Pixel and mip storage are total functions
from coordinates. -/
structure QueryState where
  bufferAllocated : Bool
  numTriangleBatches : Nat
  width : Int
  height : Int
  viewProj : Mat4
  scaleX : ℚ
  scaleY : ℚ
  offsetX : ℚ
  offsetY : ℚ
  pixel : Int → Int → Int
  mips : List (Int → Int → DepthValue)

/-- Modelled from the spec: `OcclusionBuffer::ViewportTransform` (the
header defining it is not part of the provided sources) — divides by `w`
and maps clip-space x/y to pixel coordinates through the viewport scale
and offset, scaling depth by `OCCLUSION_Z_SCALE`. -/
def ViewportTransform (s : QueryState) (v : Vec4) : Vec3 :=
  let invW := 1 / v.w
  { x := invW * v.x * s.scaleX + s.offsetX
    y := invW * v.y * s.scaleY + s.offsetY
    z := invW * v.z * OCCLUSION_Z_SCALE }

/-- The C `(int)` cast of a rational: truncation toward zero. -/
def truncQ (q : ℚ) : Int := Int.tdiv q.num (q.den : Int)

/-- The eight AABB corners projected through the view-projection matrix,
in the order of lines 200-207 of `OcclusionBuffer.cpp`. -/
def projectedCorners (m : Mat4) (b : BoundingBox) : List Vec4 :=
  [ModelTransform m b.min,
   ModelTransform m ⟨b.max.x, b.min.y, b.min.z⟩,
   ModelTransform m ⟨b.min.x, b.max.y, b.min.z⟩,
   ModelTransform m ⟨b.max.x, b.max.y, b.min.z⟩,
   ModelTransform m ⟨b.min.x, b.min.y, b.max.z⟩,
   ModelTransform m ⟨b.max.x, b.min.y, b.max.z⟩,
   ModelTransform m ⟨b.min.x, b.max.y, b.max.z⟩,
   ModelTransform m b.max]

/-- Running bounds of the projected corners (`minX/maxX/minY/maxY/minZ`
of `IsVisible`). -/
structure ProjBounds where
  minX : ℚ
  maxX : ℚ
  minY : ℚ
  maxY : ℚ
  minZ : ℚ

/-- The corner loop of `IsVisible` (lines 221-233 of
`OcclusionBuffer.cpp`): each remaining corner first triggers the
near-plane early-out (`z ≤ 0` returns visible, modelled as `none`), then
is projected to screen space and folded into the running bounds. -/
def scanCornersRest (s : QueryState) : List Vec4 → ProjBounds → Option ProjBounds
  | [], acc => some acc
  | v :: rest, acc =>
    if v.z ≤ 0 then none
    else
      let p := ViewportTransform s v
      scanCornersRest s rest
        { minX := min acc.minX p.x, maxX := max acc.maxX p.x
          minY := min acc.minY p.y, maxY := max acc.maxY p.y
          minZ := min acc.minZ p.z }

/-- Lines 212-233 of `OcclusionBuffer.cpp`: the first corner initializes
the running bounds (after its own near-plane check), the rest are folded
by `scanCornersRest`; `none` models the conservative `return true`. -/
def scanCorners (s : QueryState) : List Vec4 → Option ProjBounds
  | [] => none
  | v :: rest =>
    if v.z ≤ 0 then none
    else
      let p := ViewportTransform s v
      scanCornersRest s rest
        { minX := p.x, maxX := p.x, minY := p.y, maxY := p.y, minZ := p.z }

/-- The screen rectangle of the query. -/
structure QueryRect where
  left : Int
  top : Int
  right : Int
  bottom : Int

/-- Lines 236-249 of `OcclusionBuffer.cpp`: the projected bounds expanded
by 1.5 px on the min side and 0.5 px on the max side, truncated to
integers and clamped to the buffer. -/
def queryRect (s : QueryState) (b : ProjBounds) : QueryRect :=
  let left0 := truncQ (b.minX - 3/2)
  let top0 := truncQ (b.minY - 3/2)
  let right0 := truncQ (b.maxX + 1/2)
  let bottom0 := truncQ (b.maxY + 1/2)
  { left := if left0 < 0 then 0 else left0
    top := if top0 < 0 then 0 else top0
    right := if right0 ≥ s.width then s.width - 1 else right0
    bottom := if bottom0 ≥ s.height then s.height - 1 else bottom0 }

/-- The inclusive integer range `[a, b]` as a list (empty when `b < a`),
the iteration space of the cell and pixel loops of `IsVisible`. -/
def intRange (a b : Int) : List Int :=
  (List.range (b + 1 - a).toNat).map fun k => a + (k : Int)

/-- Arithmetic right shift by `sh` bits (`>> shift` of `IsVisible` on the
clamped, non-negative rectangle coordinates): floor division by `2^sh`. -/
def shiftDiv (a : Int) (sh : Nat) : Int := Int.fdiv a (2 ^ sh)

/-- The mip cells of level shift `sh` covered by the clamped rectangle
`r`, in the row-major scan order of lines 262-280 of
`OcclusionBuffer.cpp`: rows `r.top >> sh` to `r.bottom >> sh`, cells
`r.left >> sh` to `r.right >> sh`, all inclusive. -/
def levelCells (lv : Int → Int → DepthValue) (r : QueryRect) (sh : Nat) :
    List DepthValue :=
  (intRange (shiftDiv r.top sh) (shiftDiv r.bottom sh)).flatMap fun y =>
    (intRange (shiftDiv r.left sh) (shiftDiv r.right sh)).map fun x => lv x y

/-- The per-level scan of lines 265-280 of `OcclusionBuffer.cpp`:
`z ≤ cell.min` returns visible immediately (`some true`); `z ≤ cell.max`
clears `allOccluded`; a fully scanned level with `allOccluded` still set
returns not-visible (`some false`); otherwise the level is inconclusive
(`none`). -/
def scanLevelCode (z : Int) : List DepthValue → Bool → Option Bool
  | [], allOccluded => if allOccluded then some false else none
  | c :: rest, allOccluded =>
    if z ≤ c.min then some true
    else scanLevelCode z rest (if z ≤ c.max then false else allOccluded)

/-- The raw pixels covered by the clamped rectangle, in the row-major
order of lines 287-300 of `OcclusionBuffer.cpp`. -/
def pixelCells (s : QueryState) (r : QueryRect) : List Int :=
  (intRange r.top r.bottom).flatMap fun y =>
    (intRange r.left r.right).map fun x => s.pixel x y

/-- The pixel-level fallback loop of lines 287-302: visible as soon as
`z ≤ pixel`, not-visible when the rectangle is exhausted. -/
def scanPixels (z : Int) : List Int → Bool
  | [] => false
  | p :: rest => if z ≤ p then true else scanPixels z rest

/-- The level loop of lines 255-284 of `OcclusionBuffer.cpp`: levels are
scanned from the coarsest (`numReadyMipBuffers - 1`, shift `i + 1`) down
to the finest (level 0, shift 1); a conclusive level returns its verdict,
an inconclusive one falls through to the next finer level, and after
level 0 the raw pixels decide. -/
def scanLevels (s : QueryState) (z : Int) (r : QueryRect) : Nat → Bool
  | 0 => scanPixels z (pixelCells s r)
  | i + 1 =>
    match scanLevelCode z
        (levelCells (s.mips.getD i fun _ _ => ⟨0, 0⟩) r (i + 1)) true with
    | some b => b
    | none => scanLevels s z r i

/-- `OcclusionBuffer::IsVisible` (lines 193-303 of `OcclusionBuffer.cpp`):
unallocated buffer or zero batches is visible; any corner at or behind
the near plane is visible; otherwise the clamped screen rectangle and the
biased depth threshold `(int)minZ - width` are tested against the mip
hierarchy and finally the raw pixels. -/
def isVisible (s : QueryState) (box : BoundingBox) : Bool :=
  if !s.bufferAllocated || s.numTriangleBatches == 0 then true
  else
    match scanCorners s (projectedCorners s.viewProj box) with
    | none => true
    | some b =>
      let r := queryRect s b
      let z := truncQ b.minZ - s.width
      scanLevels s z r s.mips.length

/-- The spec's description of one level of the mip query: visible when
some covered cell has `threshold ≤ cell.min`; not-visible when every
covered cell has `threshold > cell.max`; inconclusive otherwise. -/
def scanLevelSpec (z : Int) (cells : List DepthValue) : Option Bool :=
  if cells.any fun c => decide (z ≤ c.min) then some true
  else if cells.all fun c => decide (c.max < z) then some false
  else none

/-- The spec's description of the hierarchical query: from coarsest to
finest level apply `scanLevelSpec`, descending on an inconclusive level;
at pixel level, visible exactly when some covered raw pixel satisfies
`threshold ≤ pixel`. -/
def scanLevelsSpec (s : QueryState) (z : Int) (r : QueryRect) : Nat → Bool
  | 0 => (pixelCells s r).any fun p => decide (z ≤ p)
  | i + 1 =>
    match scanLevelSpec z
        (levelCells (s.mips.getD i fun _ _ => ⟨0, 0⟩) r (i + 1)) with
    | some b => b
    | none => scanLevelsSpec s z r i

/-- The visibility query as described by the spec's words for the mip
scan (claim C1): identical projection front-end, with the scan phase
replaced by the declarative `scanLevelsSpec`. -/
def IsVisibleSpec (s : QueryState) (box : BoundingBox) : Bool :=
  if !s.bufferAllocated || s.numTriangleBatches == 0 then true
  else
    match scanCorners s (projectedCorners s.viewProj box) with
    | none => true
    | some b =>
      let r := queryRect s b
      let z := truncQ b.minZ - s.width
      scanLevelsSpec s z r s.mips.length

lemma scanPixels_any (z : Int) :
    ∀ l : List Int, scanPixels z l = l.any fun p => decide (z ≤ p) := by
  intro l
  induction l with
  | nil => rfl
  | cons p rest ih =>
    rw [scanPixels]
    by_cases h : z ≤ p
    · simp [h]
    · simp [h, ih]

lemma scanLevelCode_spec (z : Int) :
    ∀ (cells : List DepthValue) (acc : Bool),
      scanLevelCode z cells acc =
        if cells.any fun c => decide (z ≤ c.min) then some true
        else if acc && (cells.all fun c => decide (c.max < z)) then some false
        else none := by
  intro cells
  induction cells with
  | nil => intro acc; cases acc <;> simp [scanLevelCode]
  | cons c rest ih =>
    intro acc
    rw [scanLevelCode]
    by_cases h1 : z ≤ c.min
    · simp [h1]
    · by_cases h2 : z ≤ c.max
      · rw [if_neg h1, ih]
        have hm : ¬(c.max < z) := by omega
        simp [h1, h2, hm]
      · rw [if_neg h1, ih]
        have hm : c.max < z := by omega
        simp [h1, h2, hm]

lemma scanLevels_spec (s : QueryState) (z : Int) (r : QueryRect) :
    ∀ n, scanLevels s z r n = scanLevelsSpec s z r n := by
  intro n
  induction n with
  | zero => rw [scanLevels, scanLevelsSpec, scanPixels_any]
  | succ i ih =>
    rw [scanLevels, scanLevelsSpec, scanLevelCode_spec]
    simp only [Bool.true_and, scanLevelSpec]
    by_cases hA : ((levelCells (s.mips.getD i fun _ _ => ⟨0, 0⟩) r (i + 1)).any
        fun c => decide (z ≤ c.min)) = true
    · rw [if_pos hA]
    · rw [if_neg hA]
      by_cases hB : ((levelCells (s.mips.getD i fun _ _ => ⟨0, 0⟩) r (i + 1)).all
          fun c => decide (c.max < z)) = true
      · rw [if_pos hB]
      · rw [if_neg hB]
        exact ih

lemma scanCornersRest_isSome (s : QueryState) :
    ∀ (l : List Vec4) (acc : ProjBounds), (∀ v ∈ l, 0 < v.z) →
      (scanCornersRest s l acc).isSome = true := by
  intro l
  induction l with
  | nil => intro acc _; rfl
  | cons v rest ih =>
    intro acc h
    rw [scanCornersRest]
    rw [if_neg (not_le.mpr (h v (by simp)))]
    exact ih _ fun u hu => h u (by simp [hu])

lemma scanCorners_isSome (s : QueryState) (l : List Vec4)
    (hne : l ≠ []) (h : ∀ v ∈ l, 0 < v.z) :
    (scanCorners s l).isSome = true := by
  cases l with
  | nil => exact absurd rfl hne
  | cons v rest =>
    rw [scanCorners]
    rw [if_neg (not_le.mpr (h v (by simp)))]
    exact scanCornersRest_isSome s rest _ fun u hu => h u (by simp [hu])

lemma scanCornersRest_none (s : QueryState) :
    ∀ (l : List Vec4) (acc : ProjBounds), (∃ v ∈ l, v.z ≤ 0) →
      scanCornersRest s l acc = none := by
  intro l
  induction l with
  | nil => intro acc h; simp at h
  | cons v rest ih =>
    intro acc h
    rw [scanCornersRest]
    by_cases hv : v.z ≤ 0
    · rw [if_pos hv]
    · rw [if_neg hv]
      apply ih
      rcases h with ⟨u, hu, hz⟩
      rcases List.mem_cons.mp hu with h1 | h1
      · exact absurd (h1 ▸ hz) hv
      · exact ⟨u, h1, hz⟩

lemma scanCorners_none (s : QueryState) (l : List Vec4)
    (h : ∃ v ∈ l, v.z ≤ 0) : scanCorners s l = none := by
  cases l with
  | nil => rfl
  | cons v rest =>
    rw [scanCorners]
    by_cases hv : v.z ≤ 0
    · rw [if_pos hv]
    · rw [if_neg hv]
      apply scanCornersRest_none
      rcases h with ⟨u, hu, hz⟩
      rcases List.mem_cons.mp hu with h1 | h1
      · exact absurd (h1 ▸ hz) hv
      · exact ⟨u, h1, hz⟩

/-- C1: on an idle pipeline (all mip levels ready), for a query whose
eight projected corners all lie strictly in front of the near plane, the
corner loop completes (no early near-plane exit) and `IsVisible` computes
exactly the spec's hierarchical scan: from coarsest to finest mip level,
visible as soon as some covered cell has `threshold ≤ cell.min`,
not-visible when every covered cell of a level has `threshold > cell.max`
(without consulting finer data), descending otherwise, and at pixel level
visible exactly when `threshold ≤ some covered raw pixel`. -/
theorem isVisible_hierarchicalQuery (s : QueryState) (box : BoundingBox)
    (_halloc : s.bufferAllocated = true)
    (_hbatch : s.numTriangleBatches ≠ 0)
    (hfront : ∀ v ∈ projectedCorners s.viewProj box, 0 < v.z) :
    (scanCorners s (projectedCorners s.viewProj box)).isSome = true ∧
    isVisible s box = IsVisibleSpec s box := by
  refine ⟨scanCorners_isSome s _ (by simp [projectedCorners]) hfront, ?_⟩
  unfold isVisible IsVisibleSpec
  by_cases hg : (!s.bufferAllocated || s.numTriangleBatches == 0) = true
  · rw [if_pos hg, if_pos hg]
  · rw [if_neg hg, if_neg hg]
    cases h : scanCorners s (projectedCorners s.viewProj box) with
    | none => rfl
    | some b => exact scanLevels_spec s _ _ _

/-- C6: any projected corner at or behind the near plane (`z ≤ 0`) makes
`IsVisible` return true, for an allocated buffer with at least one
submitted batch, regardless of the depth and mip contents. -/
theorem isVisible_nearPlaneConservative (s : QueryState) (box : BoundingBox)
    (_halloc : s.bufferAllocated = true)
    (_hbatch : s.numTriangleBatches ≠ 0)
    (hz : ∃ v ∈ projectedCorners s.viewProj box, v.z ≤ 0) :
    isVisible s box = true := by
  unfold isVisible
  by_cases hg : (!s.bufferAllocated || s.numTriangleBatches == 0) = true
  · rw [if_pos hg]
  · rw [if_neg hg]
    rw [scanCorners_none s _ hz]

/-- C10: with an unallocated buffer or zero submitted batches, `IsVisible`
returns true for every box and every depth/mip contents (the state,
including all buffer contents, is universally quantified). -/
theorem isVisible_emptyAlwaysVisible (s : QueryState) (box : BoundingBox)
    (h : s.bufferAllocated = false ∨ s.numTriangleBatches = 0) :
    isVisible s box = true := by
  unfold isVisible
  rcases h with h | h <;> simp [h]

/-- The identity view-projection matrix, used for concrete instances. -/
def idMat4 : Mat4 := ⟨1, 0, 0, 0, 0, 1, 0, 0, 0, 0, 1, 0, 0, 0, 0, 1⟩

/-- A concrete query state: an allocated `4 × 2` buffer, one batch, the
identity view-projection, one mip level, constant depth 5. -/
def sampleQueryState : QueryState :=
  { bufferAllocated := true
    numTriangleBatches := 1
    width := 4
    height := 2
    viewProj := idMat4
    scaleX := 2
    scaleY := -1
    offsetX := 5/2
    offsetY := 3/2
    pixel := fun _ _ => 5
    mips := [fun _ _ => ⟨5, 5⟩] }

/-- A box whose corners all project in front of the near plane under the
identity matrix. -/
def sampleBoxFront : BoundingBox := ⟨⟨0, 0, 1⟩, ⟨1, 1, 2⟩⟩

/-- A box with corners at or behind the near plane under the identity
matrix. -/
def sampleBoxBehind : BoundingBox := ⟨⟨0, 0, -1⟩, ⟨1, 1, 1⟩⟩

/-- Concrete instance of `isVisible_hierarchicalQuery` on
`sampleQueryState` and `sampleBoxFront`. -/
theorem isVisible_hierarchicalQuery_witness :
    sampleQueryState.bufferAllocated = true ∧
    sampleQueryState.numTriangleBatches ≠ 0 ∧
    (∀ v ∈ projectedCorners sampleQueryState.viewProj sampleBoxFront, 0 < v.z) ∧
    ((scanCorners sampleQueryState
        (projectedCorners sampleQueryState.viewProj sampleBoxFront)).isSome = true ∧
     isVisible sampleQueryState sampleBoxFront =
       IsVisibleSpec sampleQueryState sampleBoxFront) := by
  have hfront : ∀ v ∈ projectedCorners sampleQueryState.viewProj sampleBoxFront,
      0 < v.z := by
    intro v hv
    simp only [projectedCorners, ModelTransform, sampleQueryState, sampleBoxFront,
      idMat4, List.mem_cons, List.not_mem_nil, or_false] at hv
    rcases hv with h | h | h | h | h | h | h | h <;> subst h <;> norm_num
  exact ⟨rfl, by decide, hfront,
    isVisible_hierarchicalQuery sampleQueryState sampleBoxFront rfl (by decide) hfront⟩

/-- Concrete instance of `isVisible_nearPlaneConservative` on
`sampleQueryState` and `sampleBoxBehind`. -/
theorem isVisible_nearPlane_witness :
    sampleQueryState.bufferAllocated = true ∧
    sampleQueryState.numTriangleBatches ≠ 0 ∧
    (∃ v ∈ projectedCorners sampleQueryState.viewProj sampleBoxBehind, v.z ≤ 0) ∧
    isVisible sampleQueryState sampleBoxBehind = true := by
  have hz : ∃ v ∈ projectedCorners sampleQueryState.viewProj sampleBoxBehind,
      v.z ≤ 0 := by
    refine ⟨ModelTransform sampleQueryState.viewProj sampleBoxBehind.min, ?_, ?_⟩
    · simp [projectedCorners]
    · norm_num [ModelTransform, idMat4, sampleQueryState, sampleBoxBehind]
  exact ⟨rfl, by decide, hz,
    isVisible_nearPlaneConservative sampleQueryState sampleBoxBehind rfl (by decide) hz⟩

/-- A concrete query state whose buffer was never allocated. -/
def emptyQueryState : QueryState :=
  { sampleQueryState with bufferAllocated := false }

/-- Concrete instance of `isVisible_emptyAlwaysVisible` on
`emptyQueryState`. -/
theorem isVisible_empty_witness :
    (emptyQueryState.bufferAllocated = false ∨
     emptyQueryState.numTriangleBatches = 0) ∧
    isVisible emptyQueryState sampleBoxFront = true :=
  ⟨Or.inl rfl,
   isVisible_emptyAlwaysVisible emptyQueryState sampleBoxFront (Or.inl rfl)⟩
